import Mathlib

/-!
Verification of the incremental invoice reconciliation engine:
a shallow embedding of the source modules (file_handler.py, order_parser.py,
invoice_extractor.py, database.py, amazon_invoice_downloader.py) together
with theorems settling the specification claims.

Browser interaction, real time and the network are modelled as oracle
parameters (an `Env` of boolean outcome functions); everything else is
translated directly from the source.
-/

namespace AmzInvoice

/-! ### file_handler.py : extract_uuid_from_url

The source searches the URL for the case-insensitive regex
`([0-9a-f]{8}-[0-9a-f]{4}-[0-9a-f]{4}-[0-9a-f]{4}-[0-9a-f]{12})`
(`re.search`, i.e. the leftmost position where the fixed-length shape
matches) and returns the matched 36-character group lowercased, or None.
-/

/-- Python `str.lower` restricted to ASCII (the matched group holds only hex digits
and dashes, where Python's `lower` agrees with the ASCII case map). -/
def lowerChar (c : Char) : Char :=
  if 65 ≤ c.toNat ∧ c.toNat ≤ 90 then Char.ofNat (c.toNat + 32) else c

/-- The regex character class `[0-9a-f]` under `re.IGNORECASE`. -/
def hexChar (c : Char) : Bool :=
  decide ((48 ≤ c.toNat ∧ c.toNat ≤ 57) ∨ (97 ≤ c.toNat ∧ c.toNat ≤ 102) ∨
    (65 ≤ c.toNat ∧ c.toNat ≤ 70))

/-- Consume exactly `n` hex characters (the regex atom `[0-9a-f]{n}`),
returning the remaining characters. -/
def peelHex : Nat → List Char → Option (List Char)
  | 0, cs => some cs
  | _ + 1, [] => none
  | n + 1, c :: cs => if hexChar c then peelHex n cs else none

/-- Consume one `-` character. -/
def peelDash : List Char → Option (List Char)
  | [] => none
  | c :: cs => if c = '-' then some cs else none

/-- Run a sequence of consuming matchers left to right. -/
def runStages : List (Nat × (List Char → Option (List Char))) → List Char →
    Option (List Char)
  | [], cs => some cs
  | (_, f) :: fs, cs =>
    match f cs with
    | none => none
    | some r => runStages fs r

/-- The UUID shape `8-4-4-4-12`, each stage tagged with its exact length. -/
def uuidStages : List (Nat × (List Char → Option (List Char))) :=
  [(8, peelHex 8), (1, peelDash), (4, peelHex 4), (1, peelDash),
   (4, peelHex 4), (1, peelDash), (4, peelHex 4), (1, peelDash),
   (12, peelHex 12)]

/-- Match the UUID regex at the start of `cs` (trailing characters free). -/
def peelShape (cs : List Char) : Option (List Char) :=
  runStages uuidStages cs

/-- Does the UUID regex match at the start of `cs`? -/
def uuid36 (cs : List Char) : Bool :=
  (peelShape cs).isSome

/-- Model of `re.search` for the UUID pattern: the leftmost position where the
36-character shape matches, returning the matched characters. -/
def findUuid : List Char → Option (List Char)
  | [] => none
  | c :: cs => if uuid36 (c :: cs) then some ((c :: cs).take 36) else findUuid cs

/-- Function `extract_uuid_from_url`: first UUID-shaped segment of the URL, lowercased
(`match.group(1).lower()`); `None` when the pattern is absent (the source's
`if not url` guard is subsumed: the scan of an empty string finds nothing). -/
def extract_uuid_from_url (s : String) : Option String :=
  (findUuid s.data).map (fun cs => ⟨cs.map lowerChar⟩)

/-! ### order_parser.py -/

/-- ASCII whitespace as stripped by `str.strip` / split by `str.split`. -/
def wsChar (c : Char) : Bool :=
  c = ' ' || c = '\t' || c = '\n' || c = '\r'

/-- Python `str.strip()` on a character list. -/
def trimChars (cs : List Char) : List Char :=
  ((cs.dropWhile (fun c => wsChar c)).reverse.dropWhile (fun c => wsChar c)).reverse

/-- Python `str.strip()`. -/
def trimStr (s : String) : String :=
  ⟨trimChars s.data⟩

/-- Is `needle` a leading block of `hay`? -/
def startsWithChars : List Char → List Char → Bool
  | [], _ => true
  | _ :: _, [] => false
  | a :: as, b :: bs => a = b && startsWithChars as bs

/-- Python's `needle in hay` substring test. -/
def containsSub (needle hay : List Char) : Bool :=
  match hay with
  | [] => needle.isEmpty
  | _ :: t => startsWithChars needle hay || containsSub needle t

/-- Python `str.split()` with no separator: split on whitespace runs, no empties. -/
def splitWsAux : List Char → List Char → List (List Char)
  | [], acc => if acc.isEmpty then [] else [acc.reverse]
  | c :: cs, acc =>
    if wsChar c then
      if acc.isEmpty then splitWsAux cs [] else acc.reverse :: splitWsAux cs []
    else splitWsAux cs (c :: acc)

/-- Python `str.split()`. -/
def splitWs (s : String) : List String :=
  (splitWsAux s.data []).map (fun cs => ⟨cs⟩)

/-- The month-name list of `extract_order_info`, copied verbatim
(duplicated German/English spellings included). -/
def monthNames : List String :=
  ["Januar", "Februar", "März", "April", "Mai", "Juni",
   "Juli", "August", "September", "Oktober", "November", "Dezember",
   "January", "February", "March", "April", "May", "June",
   "July", "August", "September", "October", "November", "December"]

/-- Date extraction: the first stripped header text containing a month name. -/
def findDate (headerTexts : List String) : Option String :=
  (headerTexts.map trimStr).find?
    (fun t => monthNames.any (fun m => containsSub m.data t.data))

/-- Price extraction: the first stripped header text containing `€`. -/
def findPrice (headerTexts : List String) : Option String :=
  (headerTexts.map trimStr).find? (fun t => containsSub ['€'] t.data)

/-- Order-id extraction: split the element text on whitespace and select the
first token containing a hyphen and longer than 10 characters. -/
def findOrderId (orderIdText : Option String) : Option String :=
  match orderIdText with
  | none => none
  | some t =>
    (splitWs (trimStr t)).find?
      (fun p => containsSub ['-'] p.data && decide (10 < p.length))

/-- One invoice descriptor `{text, href}` (transient, not persisted). -/
structure Descriptor where
  text : String
  href : String
deriving DecidableEq, Repr

/-- The observable content of one rendered order card: the stripped-source
header texts (`#orderCardHeader .a-size-base`), the text of the order-id
element (`none` when no such element is found or reading it raised), and the
descriptor list produced by the link extractor for this card. -/
structure Card where
  headerTexts : List String
  orderIdText : Option String
  links : List Descriptor
deriving DecidableEq, Repr

/-- The normalized order facts. -/
structure OrderInfo where
  date : String
  price : Option String
  order_id : String
deriving DecidableEq, Repr

/-- Function `extract_order_info`: `None` when either the date or the order id is
unobtainable; the price may independently be `None`. -/
def extract_order_info (c : Card) : Option OrderInfo :=
  match findDate c.headerTexts, findOrderId c.orderIdText with
  | some d, some oid => some ⟨d, findPrice c.headerTexts, oid⟩
  | _, _ => none

/-- Digit-string value. -/
def natOfDigits (cs : List Char) : Nat :=
  cs.foldl (fun a c => 10 * a + (c.toNat - 48)) 0

/-- Python `float()` on a string drawn from digits and dots (the alphabet
left by `parse_price`'s filter): it parses iff there is at least one digit
and at most one dot, giving `intpart.fracpart`. -/
def pyFloatDigitsDots (cs : List Char) : Option ℚ :=
  if cs.all (fun c => c.isDigit || c = '.') && cs.any (fun c => c.isDigit) &&
      decide (cs.count '.' ≤ 1) then
    let ip := cs.takeWhile (fun c => c ≠ '.')
    let fp := (cs.dropWhile (fun c => c ≠ '.')).drop 1
    some ((natOfDigits ip : ℚ) + (natOfDigits fp : ℚ) / (10 : ℚ) ^ fp.length)
  else none

/-- The cleaning pipeline of `parse_price`: drop `€`, turn `,` into `.`,
strip, then keep only digits and dots. -/
def cleanPrice (s : String) : List Char :=
  ((trimChars ((s.data.filter (fun c => c ≠ '€')).map
      (fun c => if c = ',' then '.' else c))).filter
    (fun c => c.isDigit || c = '.'))

/-- Function `parse_price`: clean then `float()`, with every failure (including a
`None` argument) caught and turned into `0.0`. -/
def parse_price (p : Option String) : ℚ :=
  match p with
  | none => 0
  | some s => (pyFloatDigitsDots (cleanPrice s)).getD 0

/-! ### invoice_extractor.py : extract_invoice_links

The browser-side part (clicking the trigger, waiting for the popover) is
out of the pure model; the extraction loop over the anchor elements found
inside the active popover is embedded directly.  One `RawLink` is one such
anchor: its attributes as read by the loop, plus a `broken` flag for the
case in which reading the element raised (the loop skips it). -/

/-- One anchor element inside the active popover. -/
structure RawLink where
  broken : Bool
  href : Option String
  text : String
  textContent : Option String
  innerText : Option String
  spanText : Option String
deriving DecidableEq, Repr

/-- The display-text fallback chain of the loop body: visible text →
`textContent` → `innerText` → first span's text → `"Rechnung N"` where `N`
counts links collected so far; a final `strip` is applied on append. -/
def rawLinkText (l : RawLink) (collected : Nat) : String :=
  let t := trimStr l.text
  let t := if t = "" then l.textContent.getD "" else t
  let t := if t = "" then l.innerText.getD "" else t
  let t := if t = "" then (match l.spanText with
    | some s => trimStr s
    | none => t) else t
  let t := if t = "" then "Rechnung " ++ toString (collected + 1) else t
  trimStr t

/-- The collection loop of `extract_invoice_links`: skip broken elements,
keep hrefs containing `invoice.pdf`, drop an href already collected, else
append the descriptor. -/
def buildLinks : List RawLink → List Descriptor → List Descriptor
  | [], acc => acc
  | l :: ls, acc =>
    if l.broken then buildLinks ls acc
    else
      let href := l.href.getD ""
      if href ≠ "" ∧ containsSub "invoice.pdf".data href.data then
        if acc.any (fun inv => inv.href = href) then buildLinks ls acc
        else buildLinks ls (acc ++ [⟨rawLinkText l acc.length, href⟩])
      else buildLinks ls acc

/-- The final `seen_hrefs` dedup pass, preserving first-seen order. -/
def dedupByHref : List Descriptor → List String → List Descriptor
  | [], _ => []
  | d :: ds, seen =>
    if seen.any (fun x => x = d.href) then dedupByHref ds seen
    else d :: dedupByHref ds (d.href :: seen)

/-- Function `extract_invoice_links` applied to the anchors of the active popover. -/
def extract_invoice_links (raws : List RawLink) : List Descriptor :=
  dedupByHref (buildLinks raws []) []

/-- The hrefs that pass the loop's eligibility test, in page order (used to
state the first-seen-order property). -/
def eligibleHrefs (raws : List RawLink) : List String :=
  raws.filterMap (fun l =>
    if ¬l.broken ∧ l.href.getD "" ≠ "" ∧
        containsSub "invoice.pdf".data (l.href.getD "").data then
      some (l.href.getD "")
    else none)

/-- First-occurrence deduplication of a string list, threading the set of
hrefs already emitted. -/
def dkfAux : List String → List String → List String
  | [], _ => []
  | h :: t, seen =>
    if seen.any (fun x => x = h) then dkfAux t seen
    else h :: dkfAux t (seen ++ [h])

/-! ### database.py

The ledger is modelled as association lists keyed by `order_id` and by
`invoice_uuid`; the schema is the one `init_database` creates (the
`invoice_uuid` primary-key schema, so `_get_invoice_primary_key` returns
`invoice_uuid`).  The md5 url hash is carried as an uninterpreted function
parameter: it is stored as a plain attribute and never used as a key. -/

/-- One row of `orders` (timestamps omitted: never read by the engine). -/
structure OrderRow where
  date : String
  price : Option String
  invoice_count : Nat
deriving DecidableEq, Repr

/-- One row of `invoices` (timestamp omitted), keyed externally by uuid. -/
structure InvoiceRow where
  invoice_url : String
  invoice_hash : String
  order_id : String
  filename : Option String
deriving DecidableEq, Repr

/-- The persisted ledger. -/
structure DB where
  orders : List (String × OrderRow)
  invoices : List (String × InvoiceRow)
deriving DecidableEq, Repr

/-- Query `SELECT ... WHERE key = ?`. -/
def lookupA {α : Type} : String → List (String × α) → Option α
  | _, [] => none
  | k, (k', v) :: t => if k = k' then some v else lookupA k t

/-- Statement `INSERT OR REPLACE` into `orders` (primary key `order_id`). -/
def upsertOrder (k : String) (v : OrderRow) :
    List (String × OrderRow) → List (String × OrderRow)
  | [] => [(k, v)]
  | (k', v') :: t => if k = k' then (k, v) :: t else (k', v') :: upsertOrder k v t

/-- Statement `INSERT OR IGNORE` into `invoices` (primary key `invoice_uuid`). -/
def insertInvoiceIfAbsent (key : String) (row : InvoiceRow)
    (inv : List (String × InvoiceRow)) : List (String × InvoiceRow) :=
  if (lookupA key inv).isSome then inv else inv ++ [(key, row)]

/-- Method `get_stored_invoice_count`: the stored count, `0` for an unseen order. -/
def get_stored_invoice_count (db : DB) (oid : String) : Nat :=
  match lookupA oid db.orders with
  | some r => r.invoice_count
  | none => 0

/-- One iteration of `mark_order_processed`'s url loop (new schema): a url
with an extractable uuid is inserted create-if-absent under that uuid; a
url without one falls into the source's final `else` branch whose
`if invoice_uuid:` fails, so nothing is inserted. -/
def insertUrl (md5f : String → String) (oid : String)
    (inv : List (String × InvoiceRow)) (url : String) :
    List (String × InvoiceRow) :=
  match extract_uuid_from_url url with
  | some u => insertInvoiceIfAbsent u ⟨url, md5f url, oid, none⟩ inv
  | none => inv

/-- Method `mark_order_processed`: upsert the order row, then insert a lightweight
invoice row for every url (see `insertUrl`). -/
def mark_order_processed (md5f : String → String) (db : DB) (oid date : String)
    (price : Option String) (urls : List String) (n : Nat) : DB :=
  ⟨upsertOrder oid ⟨date, price, n⟩ db.orders,
   urls.foldl (insertUrl md5f oid) db.invoices⟩

/-- Method `get_downloaded_invoices_count`: rows with a non-null filename. -/
def get_downloaded_invoices_count (db : DB) : Nat :=
  (db.invoices.filter (fun kv => kv.2.filename.isSome)).length

/-! ### amazon_invoice_downloader.py : process_order_cards

`process_order_cards` is embedded per card.  Side effects other than the
ledger are recorded as an `Event` trace: `fetch` is one `download_invoice`
call (the HTTP GET), `persist` the local file write inside it, `forward`
one `upload_to_paperless` POST attempt, `warnZeroInvoices` the zero-invoice
anomaly warning of the card body's tail.  Network, filesystem and clock
outcomes come from the `Env` oracles. -/

/-- The sink configuration: `outputFolder` is `--output-folder`;
`paperless` states that both `paperless_url` and `paperless_token`
are configured. -/
structure Config where
  outputFolder : Option String
  paperless : Bool
deriving DecidableEq, Repr

/-- The guard of the download section (`output_folder or (paperless_url and
paperless_token)`). -/
def Config.hasSink (c : Config) : Bool :=
  c.outputFolder.isSome || c.paperless

/-- External-world oracles: `dl href` is whether `download_invoice` returns
data for that href, `up href` whether `upload_to_paperless` returns a task
id, `oldP date` the (clock-dependent) `is_order_older_than_14_days`,
`dateFmt date` the (clock-dependent on fallback) `format_date_for_filename`,
and `md5` the url hash. -/
structure Env where
  dl : String → Bool
  up : String → Bool
  oldP : String → Bool
  dateFmt : String → String
  md5 : String → String

/-- One observable side effect of the card body. -/
inductive Event where
  | fetch (href : String)
  | persist (href filename : String)
  | forward (href filename : String)
  | warnZeroInvoices (oid : String)
deriving DecidableEq, Repr

/-- Order-id sanitization for filenames: `/ \ :` become `-`. -/
def sanitizeOrderId (s : String) : String :=
  ⟨s.data.map (fun c => if c = '/' ∨ c = '\\' ∨ c = ':' then '-' else c)⟩

/-- The deterministic filename, with the 1-based index suffix only when the
card has more than one invoice in total. -/
def mkFilename (dateF oidSafe : String) (total idx : Nat) : String :=
  if 1 < total then "AMZ_" ++ dateF ++ "_" ++ oidSafe ++ "_" ++ toString idx ++ ".pdf"
  else "AMZ_" ++ dateF ++ "_" ++ oidSafe ++ ".pdf"

/-- Python `list.index`: position of the first equal element (total here;
the pipeline only queries members). -/
def idxOfDesc : List Descriptor → Descriptor → Nat
  | [], _ => 0
  | d :: t, x => if d = x then 0 else idxOfDesc t x + 1

/-- The `should_mark_complete` decision of the card body, verbatim from the
source's three-way configuration split. -/
def shouldMarkComplete (cfg : Config) (download_success paperless_success : Bool) :
    Bool :=
  if cfg.outputFolder.isSome && cfg.paperless then download_success && paperless_success
  else if cfg.paperless then paperless_success
  else if cfg.outputFolder.isSome then download_success
  else false

/-- Modelled from the spec: the completion verdict as §4.4 words it — the
conjunction over exactly the configured sinks (both-required if both are
configured, single-required if only one is).  Stated to be compared with
`shouldMarkComplete`, the definition taken from the source. -/
def specCompletionVerdict (cfg : Config) (download_success paperless_success : Bool) :
    Bool :=
  cfg.hasSink && (!cfg.outputFolder.isSome || download_success) &&
    (!cfg.paperless || paperless_success)

/-- The per-invoice loop of the download section.  Each new invoice is
fetched (`download_invoice`, to disk when an output folder is configured,
to memory otherwise), then forwarded when paperless is configured and the
fetch yielded data.  When the completion verdict is positive the source
calls `database.mark_invoice_downloaded(..., paperless_uploaded=...)`; the
method's signature has no `paperless_uploaded` parameter, so that call
raises `TypeError`, which the per-card handler catches — modelled as
returning with the `Bool` error flag set, the remaining invoices dropped
and the ledger untouched. -/
def downloadLoop (cfg : Config) (env : Env) (links : List Descriptor)
    (dateF oidSafe : String) (n : Nat) : List Descriptor → List Event × Bool
  | [] => ([], false)
  | inv :: rest =>
    let idx := idxOfDesc links inv + 1
    let filename := mkFilename dateF oidSafe n idx
    let dlOk := env.dl inv.href
    let evs := [Event.fetch inv.href] ++
      (if cfg.outputFolder.isSome && dlOk then [Event.persist inv.href filename] else []) ++
      (if cfg.paperless && dlOk then [Event.forward inv.href filename] else [])
    let plOk := cfg.paperless && dlOk && env.up inv.href
    if shouldMarkComplete cfg dlOk plOk then (evs, true)
    else
      let r := downloadLoop cfg env links dateF oidSafe n rest
      (evs ++ r.1, r.2)

/-- The download section of the card body, guarded exactly as in the source
(`if (output_folder or (paperless_url and paperless_token)) and new_invoice_links`;
the second conjunct already holds at the call site). -/
def downloadSection (cfg : Config) (env : Env) (links : List Descriptor)
    (dateF oidSafe : String) (n : Nat) (newLinks : List Descriptor) :
    List Event × Bool :=
  if cfg.hasSink then downloadLoop cfg env links dateF oidSafe n newLinks
  else ([], false)

/-- The zero-invoice anomaly check at the card body's tail: it fires only
when the card's descriptor list is empty, its parsed price is positive and
the order is older than 14 days. -/
def warnEvents (env : Env) (links : List Descriptor) (info : OrderInfo) :
    List Event :=
  if links.isEmpty then
    (if 0 < parse_price info.price ∧ env.oldP info.date = true then
      [Event.warnZeroInvoices info.order_id] else [])
  else []

/-- The body of the per-card loop of `process_order_cards`: extract order
facts (skip the card when incomplete), read the stored count `k`, take the
descriptors past `k` as new work; when none are new, refresh the order row
and stop; otherwise run the download section, then — unless the loop
aborted with the `TypeError` — refresh the ledger and run the zero-invoice
anomaly check.  Returns the new ledger, the event trace, and whether the
card ended in the per-card exception handler. -/
def processCard (cfg : Config) (env : Env) (db : DB) (card : Card) :
    DB × List Event × Bool :=
  match extract_order_info card with
  | none => (db, [], false)
  | some info =>
    let dateF := env.dateFmt info.date
    let links := card.links
    let n := links.length
    let k := get_stored_invoice_count db info.order_id
    let newLinks := links.drop k
    let urls := links.map (fun d => d.href)
    if newLinks.isEmpty then
      (mark_order_processed env.md5 db info.order_id info.date info.price urls n,
       [], false)
    else
      let r := downloadSection cfg env links dateF (sanitizeOrderId info.order_id)
        n newLinks
      if r.2 then (db, r.1, true)
      else
        (mark_order_processed env.md5 db info.order_id info.date info.price urls n,
         r.1 ++ warnEvents env links info, false)

/-- The card loop: cards processed in order, each card's failure isolated
by the per-card handler (the loop always continues). -/
def processCards (cfg : Config) (env : Env) : DB → List Card → DB × List Event
  | db, [] => (db, [])
  | db, c :: cs =>
    let r := processCard cfg env db c
    let rest := processCards cfg env r.1 cs
    (rest.1, r.2.1 ++ rest.2)

/-- The hrefs fetched in a trace, in order. -/
def fetchedHrefs (evs : List Event) : List String :=
  evs.filterMap (fun e => match e with | .fetch h => some h | _ => none)

/-- Number of fetches in a trace. -/
def countFetches (evs : List Event) : Nat :=
  (fetchedHrefs evs).length

/-- Number of forward (upload) attempts in a trace. -/
def countForwards (evs : List Event) : Nat :=
  (evs.filterMap (fun e => match e with | .forward h f => some (h, f) | _ => none)).length

/-- Number of anomaly warnings in a trace. -/
def countWarns (evs : List Event) : Nat :=
  (evs.filterMap (fun e => match e with | .warnZeroInvoices o => some o | _ => none)).length

/-! ### Concrete sample inputs used by the witnesses and counterexamples -/

/-- The empty ledger. -/
def db0 : DB := ⟨[], []⟩

/-- A sample invoice href with uuid segment `1111…`. -/
def hrefA : String :=
  "https://www.amazon.de/documents/download/11111111-1111-1111-1111-111111111111/invoice.pdf"

/-- A second sample invoice href with uuid segment `2222…`. -/
def hrefB : String :=
  "https://www.amazon.de/documents/download/22222222-2222-2222-2222-222222222222/invoice.pdf"

/-- The uuid of `hrefA`. -/
def uuidA : String := "11111111-1111-1111-1111-111111111111"

/-- A complete order card with a single invoice descriptor. -/
def cardA : Card :=
  ⟨["15 Januar 2024", "€42,99"], some "Bestellung 171-1234567-1234567",
   [⟨"Rechnung 1", hrefA⟩]⟩

/-- A complete order card with two invoice descriptors. -/
def cardAB : Card :=
  ⟨["15 Januar 2024", "€42,99"], some "Bestellung 171-1234567-1234567",
   [⟨"Rechnung 1", hrefA⟩, ⟨"Rechnung 2", hrefB⟩]⟩

/-- A complete order card with price text `€0,00` and no descriptors. -/
def cardZero : Card :=
  ⟨["15 Januar 2024", "€0,00"], some "Bestellung 171-1234567-1234567", []⟩

/-- An incomplete card: no header fragment contains a month name. -/
def cardNoDate : Card :=
  ⟨["no usable header", "€9,99"], some "Bestellung 171-1234567-1234567", []⟩

/-- The order facts of `cardA` / `cardAB` / `cardZero`'s order. -/
def infoA : OrderInfo :=
  ⟨"15 Januar 2024", some "€42,99", "171-1234567-1234567"⟩

/-- A ledger already holding the sample order with stored count 1. -/
def db1 : DB :=
  ⟨[("171-1234567-1234567", ⟨"15 Januar 2024", some "€42,99", 1⟩)], []⟩

/-- Oracles where every download and upload succeeds. -/
def envAllOk : Env :=
  ⟨fun _ => true, fun _ => true, fun _ => true, fun d => d, fun _ => "h"⟩

/-- Oracles where downloads succeed and every upload fails. -/
def envUpFail : Env :=
  ⟨fun _ => true, fun _ => false, fun _ => true, fun d => d, fun _ => "h"⟩

/-- Local-folder-only configuration. -/
def cfgFolder : Config := ⟨some "invoices", false⟩

/-- Both sinks configured. -/
def cfgBoth : Config := ⟨some "invoices", true⟩

/-- The order facts of `cardZero`. -/
def infoZero : OrderInfo :=
  ⟨"15 Januar 2024", some "€0,00", "171-1234567-1234567"⟩

/-- The code-point picture of `lowerChar`, for arithmetic reasoning. -/
def lowN (n : Nat) : Nat :=
  if 65 ≤ n ∧ n ≤ 90 then n + 32 else n

/-- Properties shared by every consuming matcher stage of the UUID regex:
a successful match is preserved (with a longer remainder) under appending,
a failed match stays failed when the appended part starts with `?` (which
is neither a hex digit nor a dash), matching is invariant under letter
case, and a successful match splits off a consumed block of the stage's
exact length. -/
structure GoodStage (n : Nat) (f : List Char → Option (List Char)) : Prop where
  append_some : ∀ xs zs r, f xs = some r → f (xs ++ zs) = some (r ++ zs)
  append_qnone : ∀ xs zs, f xs = none → f (xs ++ '?' :: zs) = none
  low_congr : ∀ xs ys, xs.map lowerChar = ys.map lowerChar →
    (f xs).map (List.map lowerChar) = (f ys).map (List.map lowerChar)
  split_some : ∀ xs r, f xs = some r →
    ∃ w, xs = w ++ r ∧ w.length = n ∧ f w = some []

/-! ## Helper lemmas about the ledger -/

theorem lookupA_append_some {α : Type} (k : String) (l l2 : List (String × α))
    (v : α) (h : lookupA k l = some v) : lookupA k (l ++ l2) = some v := by
  induction l with
  | nil => simp [lookupA] at h
  | cons p t ih =>
    rcases p with ⟨k', v'⟩
    by_cases hk : k = k' <;> simp [lookupA, hk] at h ⊢ <;> simp_all

theorem lookupA_append_self {α : Type} (k : String) (l : List (String × α))
    (v : α) (h : lookupA k l = none) : lookupA k (l ++ [(k, v)]) = some v := by
  induction l with
  | nil => simp [lookupA]
  | cons p t ih =>
    rcases p with ⟨k', v'⟩
    by_cases hk : k = k' <;> simp [lookupA, hk] at h ⊢ <;> simp_all

theorem lookupA_none_not_mem {α : Type} (k : String) (l : List (String × α))
    (h : lookupA k l = none) : k ∉ l.map Prod.fst := by
  induction l with
  | nil => simp
  | cons p t ih =>
    rcases p with ⟨k', v'⟩
    by_cases hk : k = k' <;> simp [lookupA, hk] at h ⊢ <;> simp_all

theorem insertIfAbsent_preserves (key u : String) (r row : InvoiceRow)
    (inv : List (String × InvoiceRow)) (h : lookupA u inv = some row) :
    lookupA u (insertInvoiceIfAbsent key r inv) = some row := by
  unfold insertInvoiceIfAbsent
  split
  · exact h
  · exact lookupA_append_some u inv _ row h

theorem insertIfAbsent_target (key : String) (r : InvoiceRow)
    (inv : List (String × InvoiceRow)) :
    (lookupA key (insertInvoiceIfAbsent key r inv)).isSome = true := by
  by_cases h : (lookupA key inv).isSome = true
  · simpa [insertInvoiceIfAbsent, h] using h
  · unfold insertInvoiceIfAbsent
    rw [if_neg h,
      lookupA_append_self key inv r (Option.not_isSome_iff_eq_none.mp (by simpa using h))]
    rfl

theorem insertIfAbsent_nodup (key : String) (r : InvoiceRow)
    (inv : List (String × InvoiceRow)) (h : (inv.map Prod.fst).Nodup) :
    ((insertInvoiceIfAbsent key r inv).map Prod.fst).Nodup := by
  by_cases hs : (lookupA key inv).isSome = true
  · simpa [insertInvoiceIfAbsent, hs] using h
  · have hnone : lookupA key inv = none :=
      Option.not_isSome_iff_eq_none.mp (by simpa using hs)
    have hmem := lookupA_none_not_mem key inv hnone
    unfold insertInvoiceIfAbsent
    rw [if_neg hs]
    simp only [List.map_append, List.map_cons, List.map_nil]
    simpa using List.Nodup.append h (List.nodup_singleton key) (by simpa using hmem)

theorem insertUrl_preserves (md5f : String → String) (oid u url : String)
    (row : InvoiceRow) (inv : List (String × InvoiceRow))
    (h : lookupA u inv = some row) :
    lookupA u (insertUrl md5f oid inv url) = some row := by
  rcases hx : extract_uuid_from_url url with _ | u'
  · simpa [insertUrl, hx] using h
  · simp only [insertUrl, hx]
    exact insertIfAbsent_preserves u' u _ row inv h

theorem insertUrl_nodup (md5f : String → String) (oid url : String)
    (inv : List (String × InvoiceRow)) (h : (inv.map Prod.fst).Nodup) :
    ((insertUrl md5f oid inv url).map Prod.fst).Nodup := by
  rcases hx : extract_uuid_from_url url with _ | u'
  · simpa [insertUrl, hx] using h
  · simp only [insertUrl, hx]
    exact insertIfAbsent_nodup u' _ inv h

theorem foldl_insertUrl_preserves (md5f : String → String) (oid u : String)
    (row : InvoiceRow) (urls : List String) :
    ∀ inv, lookupA u inv = some row →
      lookupA u (urls.foldl (insertUrl md5f oid) inv) = some row := by
  induction urls with
  | nil => intro inv h; exact h
  | cons url rest ih =>
    intro inv h
    exact ih _ (insertUrl_preserves md5f oid u url row inv h)

theorem foldl_insertUrl_isSome (md5f : String → String) (oid u : String)
    (urls : List String) (inv : List (String × InvoiceRow))
    (h : (lookupA u inv).isSome = true) :
    (lookupA u (urls.foldl (insertUrl md5f oid) inv)).isSome = true := by
  rcases Option.isSome_iff_exists.mp h with ⟨row, hrow⟩
  rw [foldl_insertUrl_preserves md5f oid u row urls inv hrow]
  rfl

theorem foldl_insertUrl_target (md5f : String → String) (oid u url : String)
    (urls : List String) (hm : url ∈ urls)
    (hu : extract_uuid_from_url url = some u) :
    ∀ inv, (lookupA u (urls.foldl (insertUrl md5f oid) inv)).isSome = true := by
  induction urls with
  | nil => cases hm
  | cons url0 rest ih =>
    intro inv
    rcases List.mem_cons.mp hm with heq | htail
    · subst heq
      rw [List.foldl_cons]
      apply foldl_insertUrl_isSome
      simp only [insertUrl, hu]
      exact insertIfAbsent_target u _ inv
    · rw [List.foldl_cons]
      exact ih htail _

theorem foldl_insertUrl_nodup (md5f : String → String) (oid : String)
    (urls : List String) :
    ∀ inv, (inv.map Prod.fst).Nodup →
      (((urls.foldl (insertUrl md5f oid) inv)).map Prod.fst).Nodup := by
  induction urls with
  | nil => intro inv h; exact h
  | cons url rest ih =>
    intro inv h
    exact ih _ (insertUrl_nodup md5f oid url inv h)

theorem insertUrl_dlcount (md5f : String → String) (oid url : String)
    (inv : List (String × InvoiceRow)) :
    ((insertUrl md5f oid inv url).filter (fun kv => kv.2.filename.isSome)).length =
      (inv.filter (fun kv => kv.2.filename.isSome)).length := by
  rcases hx : extract_uuid_from_url url with _ | u
  · simp [insertUrl, hx]
  · simp only [insertUrl, hx, insertInvoiceIfAbsent]
    split
    · rfl
    · simp [List.filter_append]

theorem foldl_insertUrl_dlcount (md5f : String → String) (oid : String)
    (urls : List String) :
    ∀ inv, ((urls.foldl (insertUrl md5f oid) inv).filter
        (fun kv => kv.2.filename.isSome)).length =
      (inv.filter (fun kv => kv.2.filename.isSome)).length := by
  induction urls with
  | nil => intro inv; rfl
  | cons url rest ih =>
    intro inv
    rw [List.foldl_cons, ih, insertUrl_dlcount]

theorem mop_dlcount (md5f : String → String) (db : DB) (oid date : String)
    (price : Option String) (urls : List String) (n : Nat) :
    get_downloaded_invoices_count (mark_order_processed md5f db oid date price urls n) =
      get_downloaded_invoices_count db := by
  unfold mark_order_processed get_downloaded_invoices_count
  exact foldl_insertUrl_dlcount md5f oid urls db.invoices

theorem processCard_dlcount (cfg : Config) (env : Env) (db : DB) (card : Card) :
    get_downloaded_invoices_count (processCard cfg env db card).1 =
      get_downloaded_invoices_count db := by
  rcases hE : extract_order_info card with _ | info
  · simp [processCard, hE]
  · simp only [processCard, hE]
    split
    · exact mop_dlcount _ _ _ _ _ _ _
    · split
      · rfl
      · exact mop_dlcount _ _ _ _ _ _ _

theorem processCards_dlcount (cfg : Config) (env : Env) (cards : List Card) :
    ∀ db, get_downloaded_invoices_count (processCards cfg env db cards).1 =
      get_downloaded_invoices_count db := by
  induction cards with
  | nil => intro db; rfl
  | cons c cs ih =>
    intro db
    simp only [processCards]
    rw [ih, processCard_dlcount]

/-! ## Helper lemmas about the event trace -/

theorem fetchedHrefs_append (a b : List Event) :
    fetchedHrefs (a ++ b) = fetchedHrefs a ++ fetchedHrefs b := by
  simp [fetchedHrefs]

theorem downloadLoop_fetched_sub (cfg : Config) (env : Env)
    (links : List Descriptor) (dateF oidSafe : String) (n : Nat) :
    ∀ ls h, h ∈ fetchedHrefs (downloadLoop cfg env links dateF oidSafe n ls).1 →
      h ∈ ls.map Descriptor.href := by
  intro ls
  induction ls with
  | nil => intro h hh; simp [downloadLoop, fetchedHrefs] at hh
  | cons inv rest ih =>
    intro h hh
    simp only [downloadLoop] at hh
    split at hh
    · simp only [fetchedHrefs, List.filterMap_append] at hh
      rcases List.mem_append.mp hh with h1 | h2
      · rcases List.mem_append.mp h1 with h3 | h4
        · simp [fetchedHrefs] at h3; simp [h3]
        · revert h4; split <;> intro h4 <;> simp [fetchedHrefs] at h4
      · revert h2; split <;> intro h2 <;> simp [fetchedHrefs] at h2
    · simp only [fetchedHrefs, List.filterMap_append] at hh
      rcases List.mem_append.mp hh with h1 | h2
      · rcases List.mem_append.mp h1 with h3 | h4
        · rcases List.mem_append.mp h3 with h5 | h6
          · simp [fetchedHrefs] at h5; simp [h5]
          · revert h6; split <;> intro h6 <;> simp [fetchedHrefs] at h6
        · revert h4; split <;> intro h4 <;> simp [fetchedHrefs] at h4
      · have := ih h h2
        simp [this]

theorem downloadSection_fetched_sub (cfg : Config) (env : Env)
    (links : List Descriptor) (dateF oidSafe : String) (n : Nat)
    (newLinks : List Descriptor) :
    ∀ h, h ∈ fetchedHrefs (downloadSection cfg env links dateF oidSafe n newLinks).1 →
      h ∈ newLinks.map Descriptor.href := by
  intro h hh
  unfold downloadSection at hh
  revert hh
  split
  · exact downloadLoop_fetched_sub cfg env links dateF oidSafe n newLinks h
  · intro hh; simp [fetchedHrefs] at hh

theorem fetchedHrefs_warnEvents (env : Env) (links : List Descriptor)
    (info : OrderInfo) : fetchedHrefs (warnEvents env links info) = [] := by
  unfold warnEvents
  split
  · split <;> simp [fetchedHrefs]
  · rfl

theorem processCard_fetched_sub (cfg : Config) (env : Env) (db : DB)
    (card : Card) (info : OrderInfo) (hE : extract_order_info card = some info) :
    ∀ h, h ∈ fetchedHrefs (processCard cfg env db card).2.1 →
      h ∈ (card.links.drop (get_stored_invoice_count db info.order_id)).map
        Descriptor.href := by
  intro h hh
  simp only [processCard, hE] at hh
  revert hh
  split
  · intro hh; simp [fetchedHrefs] at hh
  · split
    · intro hh
      exact downloadSection_fetched_sub cfg env _ _ _ _ _ h hh
    · intro hh
      have hh' : h ∈ fetchedHrefs
          ((downloadSection cfg env card.links (env.dateFmt info.date)
            (sanitizeOrderId info.order_id) card.links.length
            (card.links.drop (get_stored_invoice_count db info.order_id))).1 ++
           warnEvents env card.links info) := hh
      rw [fetchedHrefs_append, fetchedHrefs_warnEvents, List.append_nil] at hh'
      exact downloadSection_fetched_sub cfg env _ _ _ _ _ h hh'

/-! ## Claim theorems -/

/-- C1: the claim says a positive completion verdict is recorded through
`mark_invoice_downloaded`.  In the source the only call site passes the
keyword argument `paperless_uploaded`, which the method's signature does
not accept, so the call raises `TypeError`: the pipeline never writes a
filename into the ledger (first conjunct: the completed-invoice count is
invariant under any run over any cards), and on a concrete card whose
single invoice downloads successfully the card ends in the per-card
exception handler with the ledger completely unchanged — even
`mark_order_processed` is skipped. -/
theorem C1_completion_never_recorded :
    (∀ cfg env db cards,
      get_downloaded_invoices_count (processCards cfg env db cards).1 =
        get_downloaded_invoices_count db) ∧
    (processCard cfgFolder envAllOk db0 cardA).1 = db0 ∧
    (processCard cfgFolder envAllOk db0 cardA).2.2 = true := by
  refine ⟨fun cfg env db cards => processCards_dlcount cfg env cards db, ?_, ?_⟩
  · decide
  · decide

/-- C2: the code slices `invoice_links_list[stored_count:]`, so nothing at
an index below the stored count is ever fetched (third conjunct), and with
stored count 1 and a current list of length 2 exactly descriptor index 1
is fetched (second conjunct).  But the claim's general statement — all of
indices `k..n-1` are fetched — fails: with stored count 0, two descriptors
and a succeeding download, the `TypeError` raised by the
`mark_invoice_downloaded` call aborts the card after the first descriptor,
so descriptor index 1 is never fetched (first conjunct). -/
theorem C2_incremental_slice :
    fetchedHrefs (processCard cfgFolder envAllOk db0 cardAB).2.1 = [hrefA] ∧
    fetchedHrefs (processCard cfgFolder envAllOk db1 cardAB).2.1 = [hrefB] ∧
    (∀ cfg env db card info, extract_order_info card = some info →
      ∀ h, h ∈ fetchedHrefs (processCard cfg env db card).2.1 →
        h ∈ (card.links.drop (get_stored_invoice_count db info.order_id)).map
          Descriptor.href) := by
  refine ⟨by decide, by decide, ?_⟩
  intro cfg env db card info hE
  exact processCard_fetched_sub cfg env db card info hE

/-- C2 witness: the third conjunct applied at the stored-count-1 instance:
the fetch of `hrefB` indeed lies beyond the low-water mark. -/
theorem C2_incremental_slice_witness :
    hrefB ∈ (cardAB.links.drop (get_stored_invoice_count db1 infoA.order_id)).map
      Descriptor.href :=
  C2_incremental_slice.2.2 cfgFolder envAllOk db1 cardAB infoA (by decide)
    hrefB (by decide)

/-- C3: the completion verdict the source computes (`should_mark_complete`)
is exactly the spec's conjunction over the configured sinks (first
conjunct), and with both sinks configured an invoice that downloads
successfully but fails the remote forward gets a negative verdict: the
card finishes without error, the invoice's ledger row is created by
`mark_order_processed` but carries no filename, and the completed-invoice
count stays zero. -/
theorem C3_completion_verdict_gating :
    (∀ cfg dlOk upOk, shouldMarkComplete cfg dlOk upOk =
      specCompletionVerdict cfg dlOk upOk) ∧
    (processCard cfgBoth envUpFail db0 cardA).2.2 = false ∧
    lookupA uuidA (processCard cfgBoth envUpFail db0 cardA).1.invoices =
      some ⟨hrefA, "h", "171-1234567-1234567", none⟩ ∧
    get_downloaded_invoices_count (processCard cfgBoth envUpFail db0 cardA).1 = 0 := by
  refine ⟨?_, by decide, by decide, by decide⟩
  intro cfg dlOk upOk
  rcases cfg with ⟨of, pl⟩
  rcases of with _ | s <;> cases pl <;> cases dlOk <;> cases upOk <;> rfl

/-- C4: the claim says a second run over an unchanged page performs zero
new downloads.  On a card whose single invoice downloads successfully, the
`TypeError` raised when recording completion aborts the card before
`mark_order_processed`, so the first run leaves the ledger untouched
(first conjunct) and the second run fetches the same invoice again (third
conjunct: one fetch in run two, where the claim requires zero). -/
theorem C4_second_run_refetches :
    (processCards cfgFolder envAllOk db0 [cardA]).1 = db0 ∧
    countFetches (processCards cfgFolder envAllOk db0 [cardA]).2 = 1 ∧
    countFetches (processCards cfgFolder envAllOk
      (processCards cfgFolder envAllOk db0 [cardA]).1 [cardA]).2 = 1 := by
  refine ⟨by decide, by decide, by decide⟩

/-- C5 counterexample: the claim says every URL gets an InvoiceRecord,
keyed by UUID or by the URL hash when no UUID is present.  For a URL with
no UUID-shaped segment, `mark_order_processed` (new schema) inserts
nothing at all: the final `else` branch requires a truthy `invoice_uuid`,
and the hash is never used as a key. -/
theorem C5_no_uuid_url_not_inserted :
    (mark_order_processed (fun _ => "x") db0 "171-1234567-1234567"
      "15 Januar 2024" (some "€42,99")
      ["https://www.amazon.de/gp/invoice/download.pdf"] 1).invoices = [] := by
  decide

/-- C5 (amended): every URL whose UUID extraction succeeds gets a
create-if-absent InvoiceRecord keyed by the lowercased UUID (first
conjunct); existing rows are never modified (second conjunct — in
particular the insert is idempotent); and no two rows share a UUID key
(third conjunct).  URLs without a UUID insert nothing
(`C5_no_uuid_url_not_inserted`). -/
theorem C5_invoice_records_upserted :
    (∀ md5f db oid d p urls n url u, url ∈ urls →
      extract_uuid_from_url url = some u →
      (lookupA u (mark_order_processed md5f db oid d p urls n).invoices).isSome
        = true) ∧
    (∀ md5f db oid d p urls n u row, lookupA u db.invoices = some row →
      lookupA u (mark_order_processed md5f db oid d p urls n).invoices = some row) ∧
    (∀ md5f db oid d p urls n, (db.invoices.map Prod.fst).Nodup →
      ((mark_order_processed md5f db oid d p urls n).invoices.map Prod.fst).Nodup) := by
  refine ⟨?_, ?_, ?_⟩
  · intro md5f db oid d p urls n url u hm hu
    exact foldl_insertUrl_target md5f oid u url urls hm hu db.invoices
  · intro md5f db oid d p urls n u row h
    exact foldl_insertUrl_preserves md5f oid u row urls db.invoices h
  · intro md5f db oid d p urls n h
    exact foldl_insertUrl_nodup md5f oid urls db.invoices h

/-- C5 witness: inserting `hrefA` makes the row keyed by its lowercased
UUID present. -/
theorem C5_invoice_records_upserted_witness :
    (lookupA uuidA (mark_order_processed (fun _ => "x") db0 "o" "d" none
      [hrefA] 1).invoices).isSome = true :=
  C5_invoice_records_upserted.1 (fun _ => "x") db0 "o" "d" none [hrefA] 1
    hrefA uuidA (by decide) (by decide)

/-- C8: a card whose date or order identifier cannot be extracted is
skipped with no side effects at all — the ledger is returned unchanged,
the event trace is empty and no error is raised (first conjunct); and
incompleteness arises exactly from a missing date or order id, so a
missing price alone never makes the card incomplete (second conjunct). -/
theorem C8_incomplete_card_no_side_effects :
    (∀ cfg env db card, extract_order_info card = none →
      processCard cfg env db card = (db, [], false)) ∧
    (∀ card, extract_order_info card = none ↔
      (findDate card.headerTexts = none ∨ findOrderId card.orderIdText = none)) := by
  constructor
  · intro cfg env db card h
    simp [processCard, h]
  · intro card
    unfold extract_order_info
    rcases findDate card.headerTexts with _ | d <;>
      rcases findOrderId card.orderIdText with _ | oid <;> simp

/-- C8 witness: a card with no month name in its header fragments is
skipped without side effects. -/
theorem C8_incomplete_card_no_side_effects_witness :
    processCard cfgFolder envAllOk db0 cardNoDate = (db0, [], false) :=
  C8_incomplete_card_no_side_effects.1 cfgFolder envAllOk db0 cardNoDate (by decide)

/-- C9 counterexample: the claim says a card with price `€0,00`, an old
date and zero descriptors emits the zero-invoice anomaly warning.  On
exactly such a card (with the age oracle answering `true`) the trace is
empty — no warning is emitted (and no error occurs): the empty descriptor
list takes the early all-already-downloaded branch, which returns before
the anomaly check, and the check itself also requires a positive parsed
price. -/
theorem C9_zero_price_no_warning :
    (processCard cfgFolder envAllOk db0 cardZero).2 = ([], false) := by
  decide

/-- C9 (amended): such a card produces no error and emits no warning: any
complete card with zero descriptors exits through the early skip branch —
updating only the order row — with an empty trace (second conjunct), and
`€0,00` parses to zero so the anomaly condition `price > 0` would fail
anyway (first conjunct). -/
theorem C9_zero_invoice_silent :
    parse_price (some "€0,00") = 0 ∧
    (∀ cfg env db card info, extract_order_info card = some info →
      card.links = [] →
      processCard cfg env db card =
        (mark_order_processed env.md5 db info.order_id info.date info.price [] 0,
         [], false)) := by
  constructor
  · have h : parse_price (some "€0,00") =
        (natOfDigits ((cleanPrice "€0,00").takeWhile (fun c => c ≠ '.')) : ℚ) +
        (natOfDigits (((cleanPrice "€0,00").dropWhile (fun c => c ≠ '.')).drop 1) : ℚ) /
          (10 : ℚ) ^ (((cleanPrice "€0,00").dropWhile (fun c => c ≠ '.')).drop 1).length := by
      simp only [parse_price, pyFloatDigitsDots]
      rw [if_pos (by decide)]
      rfl
    rw [h]
    rw [show natOfDigits ((cleanPrice "€0,00").takeWhile (fun c => c ≠ '.')) = 0 by decide]
    rw [show natOfDigits (((cleanPrice "€0,00").dropWhile (fun c => c ≠ '.')).drop 1) = 0
      by decide]
    norm_num
  · intro cfg env db card info hE hL
    simp [processCard, hE, hL]

/-- C9 witness: the amended statement applied to the concrete `€0,00`
card. -/
theorem C9_zero_invoice_silent_witness :
    processCard cfgBoth envAllOk db0 cardZero =
      (mark_order_processed envAllOk.md5 db0 infoZero.order_id infoZero.date
        infoZero.price [] 0, [], false) :=
  C9_zero_invoice_silent.2 cfgBoth envAllOk db0 cardZero infoZero (by decide) rfl

/-- C10: `parse_price` is total and never raises (it is a function into ℚ
here); `None` and the empty string give `0.0`, the thousands-separated
`€1.234,56` cleans to `1.234.56` and gives exactly `0.0`, a plain
`€42,99` gives `42.99`, and any input whose cleaned form `float()` cannot
parse gives exactly `0.0` (last conjunct) — so such orders count as
zero-price for the anomaly check. -/
theorem C10_parse_price_total :
    parse_price none = 0 ∧
    parse_price (some "") = 0 ∧
    parse_price (some "€1.234,56") = 0 ∧
    parse_price (some "€42,99") = 4299 / 100 ∧
    (∀ s, pyFloatDigitsDots (cleanPrice s) = none → parse_price (some s) = 0) := by
  refine ⟨rfl, by decide, by decide, ?_, ?_⟩
  · have h : parse_price (some "€42,99") =
        (natOfDigits ((cleanPrice "€42,99").takeWhile (fun c => c ≠ '.')) : ℚ) +
        (natOfDigits (((cleanPrice "€42,99").dropWhile (fun c => c ≠ '.')).drop 1) : ℚ) /
          (10 : ℚ) ^ (((cleanPrice "€42,99").dropWhile (fun c => c ≠ '.')).drop 1).length := by
      simp only [parse_price, pyFloatDigitsDots]
      rw [if_pos (by decide)]
      rfl
    rw [h]
    rw [show natOfDigits ((cleanPrice "€42,99").takeWhile (fun c => c ≠ '.')) = 42 by decide]
    rw [show natOfDigits (((cleanPrice "€42,99").dropWhile (fun c => c ≠ '.')).drop 1) = 99
      by decide]
    rw [show (((cleanPrice "€42,99").dropWhile (fun c => c ≠ '.')).drop 1).length = 2
      by decide]
    norm_num
  · intro s h
    show (pyFloatDigitsDots (cleanPrice s)).getD 0 = 0
    rw [h]
    rfl

/-- C10 witness: the unparseable-input conjunct applied to a concrete
letters-only price text. -/
theorem C10_parse_price_total_witness : parse_price (some "kostenlos") = 0 :=
  C10_parse_price_total.2.2.2.2 "kostenlos" (by decide)

/-! ## Lemmas for the extractor's dedup and ordering invariants (C7) -/

theorem dkfAux_not_mem_seen :
    ∀ (l seen : List String) (x : String), x ∈ dkfAux l seen → x ∉ seen := by
  intro l
  induction l with
  | nil => intro seen x hx; simp [dkfAux] at hx
  | cons h t ih =>
    intro seen x hx
    by_cases hs : seen.any (fun y => y = h) = true
    · rw [dkfAux, if_pos hs] at hx
      exact ih seen x hx
    · rw [dkfAux, if_neg hs] at hx
      rcases List.mem_cons.mp hx with rfl | hx'
      · intro hmem
        exact hs (by simpa [List.any_eq_true] using hmem)
      · intro hmem
        exact ih (seen ++ [h]) x hx' (by simp [hmem])

theorem dkfAux_nodup : ∀ (l seen : List String), (dkfAux l seen).Nodup := by
  intro l
  induction l with
  | nil => intro seen; simp [dkfAux]
  | cons h t ih =>
    intro seen
    by_cases hs : seen.any (fun y => y = h) = true
    · rw [dkfAux, if_pos hs]; exact ih seen
    · rw [dkfAux, if_neg hs]
      refine List.Nodup.cons ?_ (ih (seen ++ [h]))
      intro hmem
      exact dkfAux_not_mem_seen t (seen ++ [h]) h hmem (by simp)

theorem buildLinks_hrefs :
    ∀ (raws : List RawLink) (acc : List Descriptor),
      (buildLinks raws acc).map Descriptor.href =
        acc.map Descriptor.href ++
          dkfAux (eligibleHrefs raws) (acc.map Descriptor.href) := by
  intro raws
  induction raws with
  | nil => intro acc; simp [buildLinks, eligibleHrefs, dkfAux]
  | cons l ls ih =>
    intro acc
    by_cases hb : l.broken
    · have he : eligibleHrefs (l :: ls) = eligibleHrefs ls := by
        simp [eligibleHrefs, hb]
      rw [he]
      rw [show buildLinks (l :: ls) acc = buildLinks ls acc by
        simp [buildLinks, hb]]
      exact ih acc
    · by_cases hc : l.href.getD "" ≠ "" ∧
          containsSub "invoice.pdf".data (l.href.getD "").data
      · have he : eligibleHrefs (l :: ls) = l.href.getD "" :: eligibleHrefs ls := by
          simp [eligibleHrefs, hb, hc.1, hc.2]
        rw [he]
        by_cases hd : acc.any (fun inv => inv.href = l.href.getD "") = true
        · have hseen : (acc.map Descriptor.href).any (fun x => x = l.href.getD "")
              = true := by
            simpa [List.any_map, Function.comp] using hd
          rw [show buildLinks (l :: ls) acc = buildLinks ls acc by
            simp only [buildLinks]
            rw [if_neg (by simpa using hb), if_pos hc, if_pos hd]]
          rw [dkfAux, if_pos hseen]
          exact ih acc
        · have hseen : ¬ ((acc.map Descriptor.href).any (fun x => x = l.href.getD "")
              = true) := by
            simpa [List.any_map, Function.comp] using hd
          rw [show buildLinks (l :: ls) acc =
              buildLinks ls (acc ++ [⟨rawLinkText l acc.length, l.href.getD ""⟩]) by
            simp only [buildLinks]
            rw [if_neg (by simpa using hb), if_pos hc, if_neg hd]]
          rw [dkfAux, if_neg hseen]
          rw [ih]
          simp
      · have he : eligibleHrefs (l :: ls) = eligibleHrefs ls := by
          simp only [eligibleHrefs, List.filterMap_cons]
          rw [if_neg (fun hcontra => hc ⟨hcontra.2.1, hcontra.2.2⟩)]
        rw [he]
        rw [show buildLinks (l :: ls) acc = buildLinks ls acc by
          simp only [buildLinks]
          rw [if_neg (by simpa using hb), if_neg hc]]
        exact ih acc

theorem dedupByHref_id :
    ∀ (ds : List Descriptor) (seen : List String),
      (ds.map Descriptor.href).Nodup →
      (∀ x ∈ ds.map Descriptor.href, x ∉ seen) →
      dedupByHref ds seen = ds := by
  intro ds
  induction ds with
  | nil => intro seen _ _; rfl
  | cons d t ih =>
    intro seen hnd hdisj
    have hne : ¬ (seen.any (fun x => x = d.href) = true) := by
      have := hdisj d.href (by simp)
      simpa [List.any_eq_true] using this
    rw [dedupByHref, if_neg hne]
    congr 1
    apply ih
    · exact (List.nodup_cons.mp (by simpa using hnd)).2
    · intro x hx
      have hxne : x ≠ d.href := by
        intro heq
        exact (List.nodup_cons.mp (by simpa using hnd)).1 (heq ▸ hx)
      have hxs := hdisj x (by simp [hx])
      simp [hxne, hxs]

/-! ## Lemmas for UUID extraction (C6) -/

theorem toNat_ofNat_add32 (n : Nat) (h1 : 65 ≤ n) (h2 : n ≤ 90) :
    (Char.ofNat (n + 32)).toNat = n + 32 := by
  interval_cases n <;> decide

theorem lowerChar_toNat (c : Char) : (lowerChar c).toNat = lowN c.toNat := by
  unfold lowerChar lowN
  split_ifs with h
  · exact toNat_ofNat_add32 c.toNat h.1 h.2
  · rfl

theorem char_eq_of_toNat {a b : Char} (h : a.toNat = b.toNat) : a = b := by
  have ha := Char.ofNat_toNat a
  have hb := Char.ofNat_toNat b
  rw [← ha, ← hb, h]

theorem lowN_idem (n : Nat) : lowN (lowN n) = lowN n := by
  unfold lowN
  split_ifs <;> omega

theorem lowerChar_idem (c : Char) : lowerChar (lowerChar c) = lowerChar c := by
  apply char_eq_of_toNat
  rw [lowerChar_toNat, lowerChar_toNat]
  exact lowN_idem c.toNat

theorem map_lowerChar_idem (l : List Char) :
    (l.map lowerChar).map lowerChar = l.map lowerChar := by
  induction l with
  | nil => rfl
  | cons c t ih => simp [lowerChar_idem, ih]

theorem hexChar_eq_of_low {a b : Char} (h : lowerChar a = lowerChar b) :
    hexChar a = hexChar b := by
  have hn : lowN a.toNat = lowN b.toNat := by
    rw [← lowerChar_toNat, ← lowerChar_toNat, h]
  unfold hexChar
  rw [decide_eq_decide]
  unfold lowN at hn
  split_ifs at hn <;> omega

theorem dash_iff_of_low {a b : Char} (h : lowerChar a = lowerChar b) :
    a = '-' ↔ b = '-' := by
  have hn : lowN a.toNat = lowN b.toNat := by
    rw [← lowerChar_toNat, ← lowerChar_toNat, h]
  have ha : a = '-' ↔ a.toNat = 45 :=
    ⟨fun he => by rw [he]; decide, fun hx => char_eq_of_toNat hx⟩
  have hb : b = '-' ↔ b.toNat = 45 :=
    ⟨fun he => by rw [he]; decide, fun hx => char_eq_of_toNat hx⟩
  rw [ha, hb]
  unfold lowN at hn
  split_ifs at hn <;> omega

theorem peelHex_append_some (n : Nat) :
    ∀ xs zs r, peelHex n xs = some r → peelHex n (xs ++ zs) = some (r ++ zs) := by
  induction n with
  | zero =>
    intro xs zs r h
    simp only [peelHex, Option.some.injEq] at h
    subst h
    rfl
  | succ m ih =>
    intro xs zs r h
    cases xs with
    | nil => simp [peelHex] at h
    | cons c t =>
      simp only [peelHex] at h
      simp only [List.cons_append, peelHex]
      by_cases hx : hexChar c = true
      · rw [if_pos hx] at h ⊢
        exact ih t zs r h
      · rw [if_neg hx] at h
        cases h

theorem peelHex_append_qnone (n : Nat) :
    ∀ xs zs, peelHex n xs = none → peelHex n (xs ++ '?' :: zs) = none := by
  induction n with
  | zero => intro xs zs h; simp [peelHex] at h
  | succ m ih =>
    intro xs zs h
    cases xs with
    | nil =>
      simp only [List.nil_append, peelHex]
      rw [if_neg (by decide)]
    | cons c t =>
      simp only [peelHex] at h
      simp only [List.cons_append, peelHex]
      by_cases hx : hexChar c = true
      · rw [if_pos hx] at h ⊢
        exact ih t zs h
      · rw [if_neg hx]

theorem peelHex_low_congr (n : Nat) :
    ∀ xs ys, xs.map lowerChar = ys.map lowerChar →
      (peelHex n xs).map (List.map lowerChar) =
        (peelHex n ys).map (List.map lowerChar) := by
  induction n with
  | zero =>
    intro xs ys h
    simp only [peelHex, Option.map_some']
    rw [h]
  | succ m ih =>
    intro xs ys h
    cases xs with
    | nil =>
      cases ys with
      | nil => rfl
      | cons y ty => simp at h
    | cons x tx =>
      cases ys with
      | nil => simp at h
      | cons y ty =>
        simp only [List.map_cons, List.cons.injEq] at h
        obtain ⟨hxy, ht⟩ := h
        simp only [peelHex]
        rw [hexChar_eq_of_low hxy]
        by_cases hy : hexChar y = true
        · rw [if_pos hy, if_pos hy]
          exact ih tx ty ht
        · rw [if_neg hy, if_neg hy]

theorem peelHex_split_some (n : Nat) :
    ∀ xs r, peelHex n xs = some r →
      ∃ w, xs = w ++ r ∧ w.length = n ∧ peelHex n w = some [] := by
  induction n with
  | zero =>
    intro xs r h
    simp only [peelHex, Option.some.injEq] at h
    exact ⟨[], by simp [h], rfl, rfl⟩
  | succ m ih =>
    intro xs r h
    cases xs with
    | nil => simp [peelHex] at h
    | cons c t =>
      simp only [peelHex] at h
      by_cases hx : hexChar c = true
      · rw [if_pos hx] at h
        obtain ⟨w, e, hl, pw⟩ := ih t r h
        refine ⟨c :: w, by simp [e], by simp [hl], ?_⟩
        simp only [peelHex]
        rw [if_pos hx]
        exact pw
      · rw [if_neg hx] at h
        cases h

theorem peelDash_append_some :
    ∀ xs zs r, peelDash xs = some r → peelDash (xs ++ zs) = some (r ++ zs) := by
  intro xs zs r h
  cases xs with
  | nil => simp [peelDash] at h
  | cons c t =>
    simp only [peelDash] at h
    simp only [List.cons_append, peelDash]
    by_cases hc : c = '-'
    · rw [if_pos hc] at h ⊢
      simp only [Option.some.injEq] at h
      rw [h]
    · rw [if_neg hc] at h
      cases h

theorem peelDash_append_qnone :
    ∀ xs zs, peelDash xs = none → peelDash (xs ++ '?' :: zs) = none := by
  intro xs zs h
  cases xs with
  | nil =>
    simp only [List.nil_append, peelDash]
    rw [if_neg (by decide)]
  | cons c t =>
    simp only [peelDash] at h
    simp only [List.cons_append, peelDash]
    by_cases hc : c = '-'
    · rw [if_pos hc] at h
      cases h
    · rw [if_neg hc]

theorem peelDash_low_congr :
    ∀ xs ys, xs.map lowerChar = ys.map lowerChar →
      (peelDash xs).map (List.map lowerChar) =
        (peelDash ys).map (List.map lowerChar) := by
  intro xs ys h
  cases xs with
  | nil =>
    cases ys with
    | nil => rfl
    | cons y ty => simp at h
  | cons x tx =>
    cases ys with
    | nil => simp at h
    | cons y ty =>
      simp only [List.map_cons, List.cons.injEq] at h
      obtain ⟨hxy, ht⟩ := h
      simp only [peelDash]
      by_cases hx : x = '-'
      · rw [if_pos hx, if_pos ((dash_iff_of_low hxy).mp hx)]
        simp only [Option.map_some']
        rw [ht]
      · rw [if_neg hx, if_neg (fun hy => hx ((dash_iff_of_low hxy).mpr hy))]

theorem peelDash_split_some :
    ∀ xs r, peelDash xs = some r →
      ∃ w, xs = w ++ r ∧ w.length = 1 ∧ peelDash w = some [] := by
  intro xs r h
  cases xs with
  | nil => simp [peelDash] at h
  | cons c t =>
    simp only [peelDash] at h
    by_cases hc : c = '-'
    · rw [if_pos hc] at h
      simp only [Option.some.injEq] at h
      exact ⟨[c], by simp [h], rfl, by simp [peelDash, hc]⟩
    · rw [if_neg hc] at h
      cases h

theorem goodPeelHex (n : Nat) : GoodStage n (peelHex n) :=
  ⟨peelHex_append_some n, peelHex_append_qnone n, peelHex_low_congr n,
   peelHex_split_some n⟩

theorem goodPeelDash : GoodStage 1 peelDash :=
  ⟨peelDash_append_some, peelDash_append_qnone, peelDash_low_congr,
   peelDash_split_some⟩

theorem goodRunStages :
    ∀ (l : List (Nat × (List Char → Option (List Char)))),
      (∀ p ∈ l, GoodStage p.1 p.2) →
      GoodStage (l.map Prod.fst).sum (runStages l) := by
  intro l
  induction l with
  | nil =>
    intro _
    refine ⟨?_, ?_, ?_, ?_⟩
    · intro xs zs r h
      simp only [runStages, Option.some.injEq] at h
      rw [← h]
      rfl
    · intro xs zs h
      simp [runStages] at h
    · intro xs ys h
      simp only [runStages, Option.map_some']
      rw [h]
    · intro xs r h
      simp only [runStages, Option.some.injEq] at h
      exact ⟨[], by simp [h], rfl, rfl⟩
  | cons p ps ih =>
    intro hall
    obtain ⟨n, f⟩ := p
    have hp : GoodStage n f := hall (n, f) (by simp)
    have hps := ih (fun q hq => hall q (by simp [hq]))
    refine ⟨?_, ?_, ?_, ?_⟩
    · intro xs zs r h
      simp only [runStages] at h ⊢
      cases hf : f xs with
      | none => rw [hf] at h; cases h
      | some r1 =>
        rw [hf] at h
        rw [hp.append_some xs zs r1 hf]
        exact hps.append_some r1 zs r h
    · intro xs zs h
      simp only [runStages] at h ⊢
      cases hf : f xs with
      | none => rw [hp.append_qnone xs zs hf]
      | some r1 =>
        rw [hf] at h
        rw [hp.append_some xs ('?' :: zs) r1 hf]
        exact hps.append_qnone r1 zs h
    · intro xs ys h
      simp only [runStages]
      have hc := hp.low_congr xs ys h
      cases hfx : f xs with
      | none =>
        cases hfy : f ys with
        | none => rfl
        | some r2 => rw [hfx, hfy] at hc; cases hc
      | some r1 =>
        cases hfy : f ys with
        | none => rw [hfx, hfy] at hc; cases hc
        | some r2 =>
          rw [hfx, hfy] at hc
          simp only [Option.map_some', Option.some.injEq] at hc
          exact hps.low_congr r1 r2 hc
    · intro xs r h
      simp only [runStages] at h
      cases hf : f xs with
      | none => rw [hf] at h; cases h
      | some r1 =>
        rw [hf] at h
        obtain ⟨w1, e1, l1, p1⟩ := hp.split_some xs r1 hf
        obtain ⟨w2, e2, l2, p2⟩ := hps.split_some r1 r h
        refine ⟨w1 ++ w2, ?_, ?_, ?_⟩
        · rw [e1, e2, List.append_assoc]
        · simp [l1, l2]
        · simp only [runStages]
          rw [hp.append_some w1 w2 [] p1]
          simpa using p2

theorem peelShape_good : GoodStage 36 peelShape := by
  have h := goodRunStages uuidStages ?_
  · exact h
  · intro p hp
    simp only [uuidStages, List.mem_cons, List.not_mem_nil, or_false] at hp
    rcases hp with rfl | rfl | rfl | rfl | rfl | rfl | rfl | rfl | rfl <;>
      first
        | exact goodPeelHex _
        | exact goodPeelDash

theorem uuid36_low_congr (xs ys : List Char)
    (h : xs.map lowerChar = ys.map lowerChar) : uuid36 xs = uuid36 ys := by
  have hc := peelShape_good.low_congr xs ys h
  unfold uuid36
  cases h1 : peelShape xs <;> cases h2 : peelShape ys <;>
    rw [h1, h2] at hc <;> simp_all

theorem findUuid_low_congr :
    ∀ xs ys, xs.map lowerChar = ys.map lowerChar →
      (findUuid xs).map (List.map lowerChar) =
        (findUuid ys).map (List.map lowerChar) := by
  intro xs
  induction xs with
  | nil =>
    intro ys h
    cases ys with
    | nil => rfl
    | cons y ty => simp at h
  | cons x tx ih =>
    intro ys h
    cases ys with
    | nil => simp at h
    | cons y ty =>
      have h' := h
      simp only [List.map_cons, List.cons.injEq] at h'
      obtain ⟨hxy, ht⟩ := h'
      have hu : uuid36 (x :: tx) = uuid36 (y :: ty) := uuid36_low_congr _ _ h
      simp only [findUuid]
      rw [hu]
      by_cases h36 : uuid36 (y :: ty) = true
      · rw [if_pos h36, if_pos h36]
        simp only [Option.map_some', Option.some.injEq]
        rw [List.map_take, List.map_take, h]
      · rw [if_neg h36, if_neg h36]
        exact ih ty ht

theorem findUuid_append_q :
    ∀ p q, (findUuid p).isSome = true → findUuid (p ++ '?' :: q) = findUuid p := by
  intro p
  induction p with
  | nil => intro q h; simp [findUuid] at h
  | cons c t ih =>
    intro q h
    by_cases h36 : uuid36 (c :: t) = true
    · obtain ⟨r, hr⟩ : ∃ r, peelShape (c :: t) = some r :=
        Option.isSome_iff_exists.mp (by simpa [uuid36] using h36)
      have h36' : uuid36 (c :: (t ++ '?' :: q)) = true := by
        unfold uuid36
        rw [show c :: (t ++ '?' :: q) = (c :: t) ++ '?' :: q from rfl]
        rw [peelShape_good.append_some _ _ _ hr]
        rfl
      have hlen : 36 ≤ (c :: t).length := by
        obtain ⟨w, e, l36, _⟩ := peelShape_good.split_some _ _ hr
        rw [e, List.length_append, l36]
        omega
      rw [show (c :: t) ++ '?' :: q = c :: (t ++ '?' :: q) from rfl]
      simp only [findUuid]
      rw [if_pos h36', if_pos h36]
      rw [show c :: (t ++ '?' :: q) = (c :: t) ++ '?' :: q from rfl]
      rw [List.take_append_of_le_length hlen]
    · have hrest : (findUuid t).isSome = true := by
        rw [findUuid, if_neg (by simpa using h36)] at h
        exact h
      have hnone : peelShape (c :: t) = none := by
        cases hps : peelShape (c :: t) with
        | none => rfl
        | some r => exact absurd (by simp [uuid36, hps]) h36
      have h36' : ¬ (uuid36 (c :: (t ++ '?' :: q)) = true) := by
        unfold uuid36
        rw [show c :: (t ++ '?' :: q) = (c :: t) ++ '?' :: q from rfl]
        rw [peelShape_good.append_qnone _ _ hnone]
        simp
      rw [show (c :: t) ++ '?' :: q = c :: (t ++ '?' :: q) from rfl]
      rw [findUuid, if_neg h36', findUuid, if_neg (by simpa using h36)]
      exact ih q hrest

theorem findUuid_some_shape :
    ∀ cs w, findUuid cs = some w → peelShape w = some [] ∧ w.length = 36 := by
  intro cs
  induction cs with
  | nil => intro w h; simp [findUuid] at h
  | cons c t ih =>
    intro w h
    by_cases h36 : uuid36 (c :: t) = true
    · rw [findUuid, if_pos h36] at h
      obtain ⟨r, hr⟩ : ∃ r, peelShape (c :: t) = some r :=
        Option.isSome_iff_exists.mp (by simpa [uuid36] using h36)
      obtain ⟨w', e, l36, pw⟩ := peelShape_good.split_some _ _ hr
      have htake : (c :: t).take 36 = w' := by
        rw [e, ← l36, List.take_append_of_le_length (le_refl _), List.take_length]
      rw [htake] at h
      simp only [Option.some.injEq] at h
      rw [← h]
      exact ⟨pw, l36⟩
    · rw [findUuid, if_neg (by simpa using h36)] at h
      exact ih w h

/-- C7: `extract_invoice_links` returns a list with pairwise distinct
hrefs (second conjunct), whose href sequence is exactly the
first-occurrence deduplication, in page order, of the eligible hrefs of
the popover's anchors (first conjunct) — so the position of the first
occurrence of each href is preserved. -/
theorem C7_extract_links_dedup_ordered :
    ∀ raws, (extract_invoice_links raws).map Descriptor.href =
        dkfAux (eligibleHrefs raws) [] ∧
      (extract_invoice_links raws).Pairwise (fun a b => a.href ≠ b.href) := by
  intro raws
  have hb := buildLinks_hrefs raws []
  simp only [List.map_nil, List.nil_append] at hb
  have hnd : ((buildLinks raws []).map Descriptor.href).Nodup := by
    rw [hb]; exact dkfAux_nodup _ _
  have hid : dedupByHref (buildLinks raws []) [] = buildLinks raws [] :=
    dedupByHref_id _ _ hnd (by simp)
  constructor
  · rw [extract_invoice_links, hid, hb]
  · rw [extract_invoice_links, hid]
    exact (List.pairwise_map.mp hnd)

/-- C6 counterexample: the claim says two URLs identical except for their
query strings yield the same UUID.  `re.search` scans the whole URL, so
when the UUID-shaped segment sits inside the query string the extracted
value follows the query: these two URLs differ only in their query
strings, each contains a UUID-shaped segment, and the extracted UUIDs
differ. -/
theorem C6_query_string_uuid_differs :
    extract_uuid_from_url "https://x.de/a?id=11111111-1111-1111-1111-111111111111"
      = some "11111111-1111-1111-1111-111111111111" ∧
    extract_uuid_from_url "https://x.de/a?id=22222222-2222-2222-2222-222222222222"
      = some "22222222-2222-2222-2222-222222222222" ∧
    extract_uuid_from_url "https://x.de/a?id=11111111-1111-1111-1111-111111111111"
      ≠ extract_uuid_from_url "https://x.de/a?id=22222222-2222-2222-2222-222222222222" := by
  refine ⟨by decide, by decide, by decide⟩

/-- C6 (amended): `extract_uuid_from_url` is deterministic (first
conjunct), invariant under letter-case changes anywhere in the URL
(second conjunct, which covers case changes confined to the UUID
segment), stable under query-string changes whenever the part before the
`?` contains a UUID-shaped segment (third conjunct — the amendment: a
UUID appearing only inside the query string follows the query, see the
counterexample), and idempotent under re-extraction: extracting from the
extracted UUID returns it unchanged (fourth conjunct). -/
theorem C6_uuid_extraction_stable :
    (∀ u v : String, u = v → extract_uuid_from_url u = extract_uuid_from_url v) ∧
    (∀ u v : String, u.data.map lowerChar = v.data.map lowerChar →
      extract_uuid_from_url u = extract_uuid_from_url v) ∧
    (∀ (p q1 q2 : List Char), (findUuid p).isSome = true →
      extract_uuid_from_url ⟨p ++ '?' :: q1⟩ = extract_uuid_from_url ⟨p ++ '?' :: q2⟩) ∧
    (∀ (u s : String), extract_uuid_from_url u = some s →
      extract_uuid_from_url s = some s) := by
  have hmk : ∀ (o : Option (List Char)),
      o.map (fun cs => (⟨cs.map lowerChar⟩ : String)) =
        (o.map (List.map lowerChar)).map (fun cs => (⟨cs⟩ : String)) := by
    intro o; cases o <;> rfl
  refine ⟨?_, ?_, ?_, ?_⟩
  · intro u v h
    rw [h]
  · intro u v h
    unfold extract_uuid_from_url
    rw [hmk, hmk, findUuid_low_congr u.data v.data h]
  · intro p q1 q2 h
    unfold extract_uuid_from_url
    rw [show (⟨p ++ '?' :: q1⟩ : String).data = p ++ '?' :: q1 from rfl]
    rw [show (⟨p ++ '?' :: q2⟩ : String).data = p ++ '?' :: q2 from rfl]
    rw [findUuid_append_q p q1 h, findUuid_append_q p q2 h]
  · intro u s h
    unfold extract_uuid_from_url at h
    rw [Option.map_eq_some'] at h
    obtain ⟨w, hw, hs⟩ := h
    obtain ⟨pw, l36⟩ := findUuid_some_shape u.data w hw
    have hsd : s.data = w.map lowerChar := by rw [← hs]
    have hps : peelShape (w.map lowerChar) = some [] := by
      have hc := peelShape_good.low_congr w (w.map lowerChar)
        (map_lowerChar_idem w).symm
      rw [pw] at hc
      cases hps2 : peelShape (w.map lowerChar) with
      | none => rw [hps2] at hc; cases hc
      | some l =>
        rw [hps2] at hc
        simp only [Option.map_some', Option.some.injEq, List.map_nil] at hc
        rw [List.map_eq_nil.mp hc.symm]
    have hlen : s.data.length = 36 := by
      rw [hsd, List.length_map]
      exact l36
    cases hd : s.data with
    | nil => rw [hd] at hlen; cases hlen
    | cons a b =>
      have hps' : peelShape (a :: b) = some [] := by rw [← hd, hsd]; exact hps
      have h36 : uuid36 (a :: b) = true := by
        unfold uuid36
        rw [hps']
        rfl
      unfold extract_uuid_from_url
      rw [hd, findUuid, if_pos h36]
      have htake : (a :: b).take 36 = a :: b := by
        rw [show (36 : Nat) = (a :: b).length from by rw [← hd, hlen]]
        exact List.take_length _
      rw [htake]
      have hlow : (a :: b).map lowerChar = a :: b := by
        rw [← hd, hsd]
        exact map_lowerChar_idem w
      simp only [Option.map_some', Option.some.injEq]
      rw [hlow, ← hd]

/-- C6 witness: query-string stability applied at a URL whose path holds
the UUID, and re-extraction idempotence applied to the sample href. -/
theorem C6_uuid_extraction_stable_witness :
    extract_uuid_from_url
        ⟨"https://a/doc/19182d45-59f9-42ca-b9db-9c53853152a0".data ++ '?' :: "x=1".data⟩
      = extract_uuid_from_url
        ⟨"https://a/doc/19182d45-59f9-42ca-b9db-9c53853152a0".data ++ '?' :: "y=22".data⟩ ∧
    extract_uuid_from_url "11111111-1111-1111-1111-111111111111"
      = some "11111111-1111-1111-1111-111111111111" :=
  ⟨C6_uuid_extraction_stable.2.2.1
      "https://a/doc/19182d45-59f9-42ca-b9db-9c53853152a0".data
      "x=1".data "y=22".data (by decide),
   C6_uuid_extraction_stable.2.2.2 hrefA
      "11111111-1111-1111-1111-111111111111" (by decide)⟩

end AmzInvoice
